import Mathlib

/-!
Verification of the chunked parallel transcode pipeline of scenedetect-cpp
(`src/main.cpp`), as a shallow embedding.

The pipeline (function `main_encode_loop`, src/main.cpp:300) consists of worker
threads running `worker_thread` (src/main.cpp:220), a progress-monitor loop
(src/main.cpp:327-379), and a final concatenation step `raw_concat_files`
(src/main.cpp:280).  Every access a worker makes to the shared decoder, to
`global_chunk_id`, and to the worker's own exit path happens while
`global_decoder_mutex` is held, so one full critical section is modelled as one
atomic step of a state machine; encoding runs outside the lock and is modelled
frame by frame.  An adversarial scheduler (a list of `Choice` values) picks
which worker or the monitor moves next, so theorems quantified over all
schedules cover every thread interleaving.
-/

namespace SceneDetect

/-- Modelled from the spec: the shared decode source (`DecodeContext` /
`run_decoder` live in `decode.h`, which is not under `src/`; only the call
sites in `src/main.cpp` are).  Per spec §3 and §4.1 the source tracks
end-of-stream, returns a positive frame count while frames remain, and returns
`0` (exhaustion) or a negative engine code (mid-stream error) once no more
chunks can be produced, with every later call again reporting "no more
chunks".  `pending` lists the remaining successful decode turns, entry `n`
standing for `n + 1` decoded frames (successful counts are always positive);
`final` encodes the terminal result: `0` for clean exhaustion, `k + 1` for the
error code `-(k + 1)`. -/
structure DecodeContext where
  pending : List Nat
  final : Nat
deriving DecidableEq

/-- Modelled from the spec: one `run_decoder` call (call site src/main.cpp:226).
Returns the decode result (as the C `int` does) together with the decode
source's next state. -/
def run_decoder (d : DecodeContext) : Int × DecodeContext :=
  match d.pending with
  | [] => (-(d.final : Int), d)
  | n :: rest => (((n : Int) + 1), { d with pending := rest })

/-- Where a worker of `worker_thread` (src/main.cpp:220) currently is:
about to take a decode turn, encoding a claimed chunk (`chunkIdx` is the id it
claimed, `total` the chunk's frame count, `remaining` the frames not yet
written), or exited its loop with return value `ret`. -/
inductive Phase where
  | toDecode : Phase
  | toEncode (chunkIdx total remaining : Nat) : Phase
  | finished (ret : Int) : Phase
deriving DecidableEq

/-- Whether a worker's loop has exited. -/
def Phase.isFinished : Phase → Bool
  | .finished _ => true
  | _ => false

/-- Observable events of a pipeline run, in program order.  `lockAcq`/`unlock`
bracket the decode-turn critical section (src/main.cpp:223/233/244),
`decodeRet w r` records the value `run_decoder` returned to worker `w`,
`flagSet` the `worker_threads_finished[w].store(true)`, `notify` the
`cv.notify_one()`, `exitLoop w r` the `return r` leaving the worker loop,
`assign w idx` the claim of `global_chunk_id` (src/main.cpp:238-240), and
`frameWritten` one frame durably handed to the encoder output
(src/main.cpp:195-199). -/
inductive Event where
  | lockAcq (w : Nat)
  | decodeRet (w : Nat) (r : Int)
  | flagSet (w : Nat)
  | notify (w : Nat)
  | unlock (w : Nat)
  | exitLoop (w : Nat) (r : Int)
  | assign (w : Nat) (idx : Nat)
  | frameWritten (w : Nat)
deriving DecidableEq

/-- The shared state of `main_encode_loop` (src/main.cpp:300): the decode
source, `global_chunk_id` (src/main.cpp:80), `num_frames_completed`
(src/main.cpp:93), the `worker_threads_finished` flags (src/main.cpp:94), each
worker's control position, the monitor's `last_frames` local and loop status
(src/main.cpp:316,327-379), and a ghost log of the events so far. -/
structure State where
  decoder : DecodeContext
  global_chunk_id : Nat
  num_frames_completed : Nat
  worker_threads_finished : List Bool
  workers : List Phase
  last_frames : Nat
  monitor_done : Bool
  log : List Event
deriving DecidableEq

/-- A scheduler choice: which thread runs its next atomic step.
`decodeTurn w` is worker `w`'s whole critical section (src/main.cpp:223-244),
`encodeFrame w` writes one more frame of `w`'s current chunk and bumps the
shared counter (src/main.cpp:195-199), `finishChunk w` is the flush/close and
loop-around after a chunk encodes cleanly (src/main.cpp:201-207,252),
`encodeFail w ret` is `encode_chunk` failing with `ret ≠ 0` before the frame
loop (alloc/open failure, src/main.cpp:157-187, handled at src/main.cpp:252-262),
and `monitorWake` is one iteration of the progress loop's completion check
(src/main.cpp:367-378). -/
inductive Choice where
  | decodeTurn (w : Nat)
  | encodeFrame (w : Nat)
  | finishChunk (w : Nat)
  | encodeFail (w : Nat) (ret : Int)
  | monitorWake
deriving DecidableEq

/-- The worker a scheduler choice belongs to (`none` for the monitor). -/
def choice_worker : Choice → Option Nat
  | .decodeTurn w => some w
  | .encodeFrame w => some w
  | .finishChunk w => some w
  | .encodeFail w _ => some w
  | .monitorWake => none

/-- One atomic step of the pipeline.  A choice whose worker is not in the
right phase (or does not exist) is a no-op: the scheduler merely did not give
that thread useful work.  Event order inside the decode turn follows
src/main.cpp:223-244: lock, decode, then either flag-store / notify / unlock /
return (result ≤ 0, lines 230-235) or id claim / unlock (lines 238-244).
`encodeFail` follows src/main.cpp:252-262: flag-store, notify, return. -/
def step (c : Choice) (s : State) : State :=
  match c with
  | .decodeTurn w =>
    match s.workers[w]? with
    | some .toDecode =>
      match run_decoder s.decoder with
      | (r, dNext) =>
        if r ≤ 0 then
          { s with decoder := dNext,
                   worker_threads_finished := s.worker_threads_finished.set w true,
                   workers := s.workers.set w (.finished r),
                   log := s.log ++ [.lockAcq w, .decodeRet w r, .flagSet w,
                                    .notify w, .unlock w, .exitLoop w r] }
        else
          { s with decoder := dNext,
                   global_chunk_id := s.global_chunk_id + 1,
                   workers := s.workers.set w (.toEncode s.global_chunk_id r.toNat r.toNat),
                   log := s.log ++ [.lockAcq w, .decodeRet w r,
                                    .assign w s.global_chunk_id, .unlock w] }
    | _ => s
  | .encodeFrame w =>
    match s.workers[w]? with
    | some (.toEncode idx total (k + 1)) =>
      { s with num_frames_completed := s.num_frames_completed + 1,
               workers := s.workers.set w (.toEncode idx total k),
               log := s.log ++ [.frameWritten w] }
    | _ => s
  | .finishChunk w =>
    match s.workers[w]? with
    | some (.toEncode _ _ 0) => { s with workers := s.workers.set w .toDecode }
    | _ => s
  | .encodeFail w ret =>
    match s.workers[w]? with
    | some (.toEncode _ total remaining) =>
      if remaining = total ∧ ret ≠ 0 then
        { s with worker_threads_finished := s.worker_threads_finished.set w true,
                 workers := s.workers.set w (.finished ret),
                 log := s.log ++ [.flagSet w, .notify w, .exitLoop w ret] }
      else s
    | _ => s
  | .monitorWake =>
    if s.monitor_done then s
    else { s with last_frames := s.num_frames_completed,
                  monitor_done := s.worker_threads_finished.all (fun b => b) }

/-- Run the pipeline under a given schedule. -/
def run (cs : List Choice) (s : State) : State :=
  cs.foldl (fun t c => step c t) s

/-- The initial state of `main_encode_loop` with `W` workers: the statics
`global_chunk_id` and `num_frames_completed` start at `0`, the zero-initialized
`worker_threads_finished` flags at `false` (src/main.cpp:80,93,94), and every
spawned worker is about to take its first decode turn (src/main.cpp:311-313). -/
def init_state (W : Nat) (d : DecodeContext) : State :=
  { decoder := d,
    global_chunk_id := 0,
    num_frames_completed := 0,
    worker_threads_finished := List.replicate W false,
    workers := List.replicate W .toDecode,
    last_frames := 0,
    monitor_done := false,
    log := [] }

/-- The chunk ids claimed so far, in the order the decode turns completed. -/
def assignedIds (log : List Event) : List Nat :=
  log.filterMap (fun e => match e with
    | .assign _ idx => some idx
    | _ => none)

/-- Recognizes the per-frame write events. -/
def isFrameWritten : Event → Bool
  | .frameWritten _ => true
  | _ => false

/-- How many times worker `w`'s finished-flag was stored in a run. -/
def flagSetCount (w : Nat) (log : List Event) : Nat :=
  (log.filter (fun e => decide (e = Event.flagSet w))).length

/-- The value of the C `double` returned by `compute_fps`
(src/main.cpp:318-325): either `INFINITY` or an exact rational (doubles are
modelled as exact rationals; the quantities involved are small integers
divided by millisecond counts). -/
inductive FpsVal where
  | inf : FpsVal
  | val (q : ℚ) : FpsVal
deriving DecidableEq

/-- Transcription of the `compute_fps` lambda (src/main.cpp:318-325).  The
source computes `1000 * n_frames` as `int * uint32_t`: the usual arithmetic
conversions perform the product in unsigned 32-bit arithmetic, so it wraps
modulo `2^32` before being cast (exactly, since it is below `2^53`) to
`double`; the division itself is modelled in exact rationals. -/
def compute_fps (n_frames : Nat) (time_ms : Int) : FpsVal :=
  if time_ms ≤ 0 then .inf
  else .val ((((1000 * n_frames) % 2 ^ 32 : Nat) : ℚ) / (time_ms : ℚ))

/-- The C `(int)` cast applied to `compute_fps`'s result (src/main.cpp:354):
truncation toward zero, i.e. `tdiv` of the reduced numerator by the
denominator.  Casting `INFINITY` to `int` is undefined behavior in the source
(noted in its own TODO, src/main.cpp:351-353); the model returns `0` there and
no theorem relies on that branch. -/
def fps_to_int : FpsVal → Int
  | .inf => 0
  | .val q => q.num.tdiv (q.den : Int)

/-- What one progress-loop iteration reports (src/main.cpp:336-365). -/
structure MonitorReport where
  frame_diff : Nat
  local_fps : Int
  avg_fps : FpsVal
deriving DecidableEq

/-- Transcription of one iteration of the progress loop
(src/main.cpp:333-358).  `no_timeout` is `status == std::cv_status::no_timeout`
(the wait was interrupted early by a worker's signal); `last_frames` and
`n_frames` are the previous and current reads of `num_frames_completed`
(monotone, so the `uint32_t` subtraction is plain subtraction); the three time
arguments are the steady-clock readings `start`, `local_start` and `local_now`
in milliseconds. -/
def monitor_iteration (no_timeout : Bool) (last_frames n_frames : Nat)
    (start_ms local_start_ms local_now_ms : Int) : MonitorReport :=
  let frame_diff := n_frames - last_frames
  let total_elapsed_ms := local_now_ms - start_ms
  let local_fps : Int :=
    if no_timeout then
      fps_to_int (compute_fps frame_diff (local_now_ms - local_start_ms))
    else (frame_diff : Int)
  { frame_diff := frame_diff,
    local_fps := local_fps,
    avg_fps := compute_fps n_frames total_elapsed_ms }

/-- Result of the concatenation pass: whether `output.mp4` was created (and
truncated) by the `std::ofstream` constructor, the bytes written to it, and
the chunk-file indices opened as inputs, in order. -/
structure ConcatResult where
  output_created : Bool
  output : List Nat
  opened_inputs : List Nat
deriving DecidableEq

/-- Transcription of `raw_concat_files` (src/main.cpp:280-293): open
(create/truncate) `output.mp4`, then for `i = 0, 1, ..., num_files - 1` open
chunk file `"file <i>.mp4"` and append its bytes to the output.  `content i`
gives the bytes of chunk file `i` on disk. -/
def raw_concat_files (num_files : Nat) (content : Nat → List Nat) : ConcatResult :=
  (List.range num_files).foldl
    (fun r i => { r with output := r.output ++ content i,
                         opened_inputs := r.opened_inputs ++ [i] })
    { output_created := true, output := [], opened_inputs := [] }

/-- The diagnostic message `segvHandler` writes (src/main.cpp:56). -/
def segv_message : String :=
  "Segmentation fault occurred. Please file a bug report on GitHub.\n"

/-- How a process run ends: what was written to the error stream, and the
exit status. -/
structure ProcessOutcome where
  stderr_writes : List String
  exit_status : Nat
deriving DecidableEq

/-- Transcription of `segvHandler` (src/main.cpp:55-58): one `w_err` line,
then `exit(EXIT_FAILURE)` (status `1`). -/
def segvHandler : ProcessOutcome :=
  { stderr_writes := [segv_message], exit_status := 1 }

/-- Modelled from the spec: delivery of a memory-access fault (spec §6,
"Process exit behavior").  With the handler installed the OS runs
`segvHandler`; without it the default disposition kills the process with no
diagnostic (status 139 models death by `SIGSEGV`, still nonzero). -/
def on_segfault (handler_installed : Bool) : ProcessOutcome :=
  if handler_installed then segvHandler
  else { stderr_writes := [], exit_status := 139 }

/-- Transcription of the start of `main_unused` (src/main.cpp:586-589): the
first action is `signal(SIGSEGV, segvHandler)`; `signal_ok` says whether that
OS call succeeded, and the handler is installed exactly when it did. -/
def main_unused_installs_handler (signal_ok : Bool) : Bool := signal_ok

/-! ## Basic run lemmas -/

theorem run_nil (s : State) : run [] s = s := rfl

theorem run_cons (c : Choice) (cs : List Choice) (s : State) :
    run (c :: cs) s = run cs (step c s) := rfl

theorem run_append (cs1 cs2 : List Choice) (s : State) :
    run (cs1 ++ cs2) s = run cs2 (run cs1 s) :=
  List.foldl_append _ _ cs1 cs2

theorem assignedIds_append (l1 l2 : List Event) :
    assignedIds (l1 ++ l2) = assignedIds l1 ++ assignedIds l2 :=
  List.filterMap_append _ _ _

theorem flagSetCount_append (w : Nat) (l1 l2 : List Event) :
    flagSetCount w (l1 ++ l2) = flagSetCount w l1 + flagSetCount w l2 := by
  simp [flagSetCount, List.filter_append]

/-! ## The reachability invariant

`Inv` collects everything the claims need about a reachable pipeline state:
the finished-flags mirror the workers' phases, the assigned chunk ids are
exactly `0, 1, ..., global_chunk_id - 1` in order, the completed-frame counter
counts exactly the frame-write events, a non-positive decode result is only
ever observed once the decode source is exhausted (and it stays exhausted),
and each worker's finished-flag has been stored exactly once if its loop has
exited and never otherwise. -/

structure Inv (s : State) : Prop where
  len_eq : s.worker_threads_finished.length = s.workers.length
  flags_phase : ∀ w : Nat,
    s.worker_threads_finished[w]? = (s.workers[w]?).map Phase.isFinished
  assigned_range : assignedIds s.log = List.range s.global_chunk_id
  frames_events : s.num_frames_completed = (s.log.filter isFrameWritten).length
  exhausted_sticky : ∀ w r, Event.decodeRet w r ∈ s.log → r ≤ 0 →
    s.decoder.pending = []
  flag_once : ∀ w : Nat, flagSetCount w s.log =
    (if (s.workers[w]?).map Phase.isFinished = some true then 1 else 0)

theorem inv_init (W : Nat) (d : DecodeContext) : Inv (init_state W d) := by
  refine ⟨?_, ?_, ?_, ?_, ?_, ?_⟩
  · simp [init_state]
  · intro w
    simp only [init_state, List.getElem?_replicate]
    by_cases h : w < W <;> simp [h, Phase.isFinished]
  · simp [init_state, assignedIds]
  · simp [init_state]
  · intro w r hmem
    simp [init_state] at hmem
  · intro w
    simp only [init_state, List.getElem?_replicate, flagSetCount]
    by_cases h : w < W <;> simp [h, Phase.isFinished]

/-! ## Small helper lemmas about list access and the event bookkeeping -/

theorem lt_length_of_getElem? {α : Type _} {l : List α} {i : Nat} {a : α}
    (h : l[i]? = some a) : i < l.length := by
  rcases List.getElem?_eq_some.mp h with ⟨hlt, _⟩
  exact hlt

theorem flags_phase_set_true (flags : List Bool) (workers : List Phase)
    (w : Nat) (p : Phase) (hlen : flags.length = workers.length)
    (hfp : ∀ w2 : Nat, flags[w2]? = (workers[w2]?).map Phase.isFinished)
    (hp : p.isFinished = true) (w2 : Nat) :
    (flags.set w true)[w2]? = ((workers.set w p)[w2]?).map Phase.isFinished := by
  rw [List.getElem?_set, List.getElem?_set]
  by_cases h : w = w2
  · subst h
    by_cases hlt : w < workers.length
    · simp [hlt, hlen, hp]
    · simp [hlt, hlen]
  · simp [h, hfp w2]

theorem flags_phase_set_keep (flags : List Bool) (workers : List Phase)
    (w : Nat) (p q : Phase)
    (hfp : ∀ w2 : Nat, flags[w2]? = (workers[w2]?).map Phase.isFinished)
    (hw : workers[w]? = some q) (hpq : Phase.isFinished p = Phase.isFinished q)
    (w2 : Nat) :
    flags[w2]? = ((workers.set w p)[w2]?).map Phase.isFinished := by
  rw [List.getElem?_set]
  by_cases h : w = w2
  · subst h
    have hlt : w < workers.length := lt_length_of_getElem? hw
    simp [hlt, hfp w, hw, hpq]
  · simp [h, hfp w2]

theorem assignedIds_exit6 (w : Nat) (r : Int) :
    assignedIds [Event.lockAcq w, Event.decodeRet w r, Event.flagSet w,
      Event.notify w, Event.unlock w, Event.exitLoop w r] = [] := by
  simp [assignedIds]

theorem assignedIds_assign4 (w : Nat) (r : Int) (idx : Nat) :
    assignedIds [Event.lockAcq w, Event.decodeRet w r, Event.assign w idx,
      Event.unlock w] = [idx] := by
  simp [assignedIds]

theorem assignedIds_fail3 (w : Nat) (r : Int) :
    assignedIds [Event.flagSet w, Event.notify w, Event.exitLoop w r] = [] := by
  simp [assignedIds]

theorem assignedIds_frame1 (w : Nat) :
    assignedIds [Event.frameWritten w] = [] := by
  simp [assignedIds]

theorem filterFW_exit6 (w : Nat) (r : Int) :
    List.filter isFrameWritten [Event.lockAcq w, Event.decodeRet w r,
      Event.flagSet w, Event.notify w, Event.unlock w, Event.exitLoop w r] = [] := by
  simp [List.filter, isFrameWritten]

theorem filterFW_assign4 (w : Nat) (r : Int) (idx : Nat) :
    List.filter isFrameWritten [Event.lockAcq w, Event.decodeRet w r,
      Event.assign w idx, Event.unlock w] = [] := by
  simp [List.filter, isFrameWritten]

theorem filterFW_fail3 (w : Nat) (r : Int) :
    List.filter isFrameWritten [Event.flagSet w, Event.notify w,
      Event.exitLoop w r] = [] := by
  simp [List.filter, isFrameWritten]

theorem filterFW_frame1 (w : Nat) :
    List.filter isFrameWritten [Event.frameWritten w] = [Event.frameWritten w] := by
  simp [List.filter, isFrameWritten]

theorem flagSetCount_exit6 (w w2 : Nat) (r : Int) :
    flagSetCount w2 [Event.lockAcq w, Event.decodeRet w r, Event.flagSet w,
      Event.notify w, Event.unlock w, Event.exitLoop w r]
      = if w = w2 then 1 else 0 := by
  by_cases h : w = w2 <;> simp [flagSetCount, List.filter, h]

theorem flagSetCount_assign4 (w w2 : Nat) (r : Int) (idx : Nat) :
    flagSetCount w2 [Event.lockAcq w, Event.decodeRet w r, Event.assign w idx,
      Event.unlock w] = 0 := by
  simp [flagSetCount, List.filter]

theorem flagSetCount_fail3 (w w2 : Nat) (r : Int) :
    flagSetCount w2 [Event.flagSet w, Event.notify w, Event.exitLoop w r]
      = if w = w2 then 1 else 0 := by
  by_cases h : w = w2 <;> simp [flagSetCount, List.filter, h]

theorem flagSetCount_frame1 (w w2 : Nat) :
    flagSetCount w2 [Event.frameWritten w] = 0 := by
  simp [flagSetCount, List.filter]

theorem flag_once_set_finished (workers : List Phase) (log newlog : List Event)
    (w : Nat) (q : Phase) (r : Int)
    (hw : workers[w]? = some q) (hq : q.isFinished = false)
    (hfo : ∀ w2 : Nat, flagSetCount w2 log =
      (if (workers[w2]?).map Phase.isFinished = some true then 1 else 0))
    (hcnt : ∀ w2 : Nat, flagSetCount w2 newlog =
      flagSetCount w2 log + (if w = w2 then 1 else 0)) (w2 : Nat) :
    flagSetCount w2 newlog =
      (if ((workers.set w (Phase.finished r))[w2]?).map Phase.isFinished = some true
       then 1 else 0) := by
  rw [hcnt, List.getElem?_set]
  by_cases h : w = w2
  · subst h
    have hlt : w < workers.length := lt_length_of_getElem? hw
    rw [hfo w, hw]
    cases q with
    | finished r0 => simp [Phase.isFinished] at hq
    | toDecode => simp [hlt, Phase.isFinished]
    | toEncode a b c => simp [hlt, Phase.isFinished]
  · simp [h, hfo w2]

theorem flag_once_keep (workers : List Phase) (log newlog : List Event)
    (w : Nat) (p q : Phase)
    (hw : workers[w]? = some q) (hpq : Phase.isFinished p = Phase.isFinished q)
    (hfo : ∀ w2 : Nat, flagSetCount w2 log =
      (if (workers[w2]?).map Phase.isFinished = some true then 1 else 0))
    (hcnt : ∀ w2 : Nat, flagSetCount w2 newlog = flagSetCount w2 log) (w2 : Nat) :
    flagSetCount w2 newlog =
      (if ((workers.set w p)[w2]?).map Phase.isFinished = some true then 1 else 0) := by
  rw [hcnt, List.getElem?_set]
  by_cases h : w = w2
  · subst h
    have hlt : w < workers.length := lt_length_of_getElem? hw
    rw [hfo w]
    simp [hlt, hw, hpq]
  · simp [h, hfo w2]

/-! ## Preservation of the invariant -/

theorem inv_step (c : Choice) (s : State) (h : Inv s) : Inv (step c s) := by
  obtain ⟨hlen, hfp, har, hfe, hes, hfo⟩ := h
  cases c with
  | decodeTurn w =>
    cases hw : s.workers[w]? with
    | none =>
      simp only [step, hw]
      exact ⟨hlen, hfp, har, hfe, hes, hfo⟩
    | some ph =>
      cases ph with
      | toEncode i t k =>
        simp only [step, hw]
        exact ⟨hlen, hfp, har, hfe, hes, hfo⟩
      | finished r =>
        simp only [step, hw]
        exact ⟨hlen, hfp, har, hfe, hes, hfo⟩
      | toDecode =>
        cases hd : s.decoder.pending with
        | nil =>
          have hrd : run_decoder s.decoder = (-(s.decoder.final : Int), s.decoder) := by
            simp [run_decoder, hd]
          have hneg : (-(s.decoder.final : Int)) ≤ 0 := by omega
          simp only [step, hw, hrd, if_pos hneg]
          refine ⟨?_, ?_, ?_, ?_, ?_, ?_⟩
          · simp [List.length_set, hlen]
          · exact flags_phase_set_true _ _ w _ hlen hfp rfl
          · simp [assignedIds_append, assignedIds_exit6, har]
          · simp [List.filter_append, filterFW_exit6, hfe]
          · intro w2 r2 _ _
            exact hd
          · refine flag_once_set_finished s.workers s.log _ w Phase.toDecode _ hw rfl hfo ?_
            intro w2
            rw [flagSetCount_append, flagSetCount_exit6]
        | cons n rest =>
          have hrd : run_decoder s.decoder
              = ((n : Int) + 1, { s.decoder with pending := rest }) := by
            simp [run_decoder, hd]
          have hpos : ¬ ((n : Int) + 1 ≤ 0) := by omega
          simp only [step, hw, hrd, if_neg hpos]
          refine ⟨?_, ?_, ?_, ?_, ?_, ?_⟩
          · simp [List.length_set, hlen]
          · exact flags_phase_set_keep _ _ w _ Phase.toDecode hfp hw rfl
          · rw [assignedIds_append, assignedIds_assign4, har, ← List.range_succ]
          · simp [List.filter_append, filterFW_assign4, hfe]
          · intro w2 r2 hmem hr2
            rcases List.mem_append.mp hmem with hm | hm
            · have := hes w2 r2 hm hr2
              rw [hd] at this
              simp at this
            · simp only [List.mem_cons, List.mem_singleton] at hm
              rcases hm with h1 | h1 | h1 | h1
              · simp at h1
              · have hr : r2 = (n : Int) + 1 := (Event.decodeRet.inj h1).2
                omega
              · simp at h1
              · simp at h1
          · refine flag_once_keep s.workers s.log _ w _ Phase.toDecode hw rfl hfo ?_
            intro w2
            rw [flagSetCount_append, flagSetCount_assign4]
            omega
  | encodeFrame w =>
    cases hw : s.workers[w]? with
    | none =>
      simp only [step, hw]
      exact ⟨hlen, hfp, har, hfe, hes, hfo⟩
    | some ph =>
      cases ph with
      | toDecode =>
        simp only [step, hw]
        exact ⟨hlen, hfp, har, hfe, hes, hfo⟩
      | finished r =>
        simp only [step, hw]
        exact ⟨hlen, hfp, har, hfe, hes, hfo⟩
      | toEncode i t k =>
        cases k with
        | zero =>
          simp only [step, hw]
          exact ⟨hlen, hfp, har, hfe, hes, hfo⟩
        | succ m =>
          simp only [step, hw]
          refine ⟨?_, ?_, ?_, ?_, ?_, ?_⟩
          · simp [List.length_set, hlen]
          · exact flags_phase_set_keep _ _ w _ (Phase.toEncode i t (m + 1)) hfp hw rfl
          · simp [assignedIds_append, assignedIds_frame1, har]
          · simp [List.filter_append, filterFW_frame1, hfe]
          · intro w2 r2 hmem hr2
            rcases List.mem_append.mp hmem with hm | hm
            · exact hes w2 r2 hm hr2
            · simp at hm
          · refine flag_once_keep s.workers s.log _ w _ (Phase.toEncode i t (m + 1))
              hw rfl hfo ?_
            intro w2
            rw [flagSetCount_append, flagSetCount_frame1]
            omega
  | finishChunk w =>
    cases hw : s.workers[w]? with
    | none =>
      simp only [step, hw]
      exact ⟨hlen, hfp, har, hfe, hes, hfo⟩
    | some ph =>
      cases ph with
      | toDecode =>
        simp only [step, hw]
        exact ⟨hlen, hfp, har, hfe, hes, hfo⟩
      | finished r =>
        simp only [step, hw]
        exact ⟨hlen, hfp, har, hfe, hes, hfo⟩
      | toEncode i t k =>
        cases k with
        | succ m =>
          simp only [step, hw]
          exact ⟨hlen, hfp, har, hfe, hes, hfo⟩
        | zero =>
          simp only [step, hw]
          refine ⟨?_, ?_, ?_, ?_, ?_, ?_⟩
          · simp [List.length_set, hlen]
          · exact flags_phase_set_keep _ _ w _ (Phase.toEncode i t 0) hfp hw rfl
          · exact har
          · exact hfe
          · exact hes
          · refine flag_once_keep s.workers s.log _ w _ (Phase.toEncode i t 0)
              hw rfl hfo ?_
            intro w2
            rfl
  | encodeFail w ret =>
    cases hw : s.workers[w]? with
    | none =>
      simp only [step, hw]
      exact ⟨hlen, hfp, har, hfe, hes, hfo⟩
    | some ph =>
      cases ph with
      | toDecode =>
        simp only [step, hw]
        exact ⟨hlen, hfp, har, hfe, hes, hfo⟩
      | finished r =>
        simp only [step, hw]
        exact ⟨hlen, hfp, har, hfe, hes, hfo⟩
      | toEncode i t k =>
        by_cases hcond : k = t ∧ ret ≠ 0
        · simp only [step, hw, if_pos hcond]
          refine ⟨?_, ?_, ?_, ?_, ?_, ?_⟩
          · simp [List.length_set, hlen]
          · exact flags_phase_set_true _ _ w _ hlen hfp rfl
          · simp [assignedIds_append, assignedIds_fail3, har]
          · simp [List.filter_append, filterFW_fail3, hfe]
          · intro w2 r2 hmem hr2
            rcases List.mem_append.mp hmem with hm | hm
            · exact hes w2 r2 hm hr2
            · simp at hm
          · refine flag_once_set_finished s.workers s.log _ w (Phase.toEncode i t k) _
              hw rfl hfo ?_
            intro w2
            rw [flagSetCount_append, flagSetCount_fail3]
        · simp only [step, hw, if_neg hcond]
          exact ⟨hlen, hfp, har, hfe, hes, hfo⟩
  | monitorWake =>
    by_cases hm : s.monitor_done
    · simp only [step, if_pos hm]
      exact ⟨hlen, hfp, har, hfe, hes, hfo⟩
    · simp only [step, if_neg hm]
      exact ⟨hlen, hfp, har, hfe, hes, hfo⟩

theorem inv_run (cs : List Choice) (s : State) (h : Inv s) : Inv (run cs s) := by
  induction cs generalizing s with
  | nil => exact h
  | cons c cs ih => exact ih (step c s) (inv_step c s h)

/-! ## Behaviour of single steps, and of runs from an exhausted decode source -/

theorem getElem?_set_true (flags : List Bool) (w2 w : Nat)
    (h : flags[w]? = some true) : (flags.set w2 true)[w]? = some true := by
  rw [List.getElem?_set]
  by_cases he : w2 = w
  · subst he
    have hlt : w2 < flags.length := lt_length_of_getElem? h
    simp [hlt]
  · simp [he, h]

/-- Once the decode source is exhausted, one more step never claims a chunk id,
never produces an assign event, and leaves the source exhausted. -/
theorem pending_nil_step (c : Choice) (s : State) (h : s.decoder.pending = []) :
    (step c s).decoder.pending = [] ∧
    (step c s).global_chunk_id = s.global_chunk_id ∧
    assignedIds (step c s).log = assignedIds s.log := by
  cases c with
  | decodeTurn w =>
    cases hw : s.workers[w]? with
    | none => simp [step, hw, h]
    | some ph =>
      cases ph with
      | toDecode =>
        have hrd : run_decoder s.decoder = (-(s.decoder.final : Int), s.decoder) := by
          simp [run_decoder, h]
        have hneg : (-(s.decoder.final : Int)) ≤ 0 := by omega
        simp only [step, hw, hrd, if_pos hneg]
        simp [assignedIds_append, assignedIds_exit6, h]
      | toEncode i t k => simp [step, hw, h]
      | finished r => simp [step, hw, h]
  | encodeFrame w =>
    cases hw : s.workers[w]? with
    | none => simp [step, hw, h]
    | some ph =>
      cases ph with
      | toDecode => simp [step, hw, h]
      | finished r => simp [step, hw, h]
      | toEncode i t k =>
        cases k with
        | zero => simp [step, hw, h]
        | succ m =>
          simp only [step, hw]
          simp [assignedIds_append, assignedIds_frame1, h]
  | finishChunk w =>
    cases hw : s.workers[w]? with
    | none => simp [step, hw, h]
    | some ph =>
      cases ph with
      | toDecode => simp [step, hw, h]
      | finished r => simp [step, hw, h]
      | toEncode i t k =>
        cases k with
        | succ m => simp [step, hw, h]
        | zero => simp [step, hw, h]
  | encodeFail w ret =>
    cases hw : s.workers[w]? with
    | none => simp [step, hw, h]
    | some ph =>
      cases ph with
      | toDecode => simp [step, hw, h]
      | finished r => simp [step, hw, h]
      | toEncode i t k =>
        by_cases hcond : k = t ∧ ret ≠ 0
        · simp only [step, hw, if_pos hcond]
          simp [assignedIds_append, assignedIds_fail3, h]
        · simp [step, hw, if_neg hcond, h]
  | monitorWake =>
    by_cases hm : s.monitor_done <;> simp [step, hm, h]

/-- Once the decode source is exhausted, no schedule continuation ever claims
another chunk id or produces another assign event. -/
theorem pending_nil_run (cs : List Choice) (s : State) (h : s.decoder.pending = []) :
    (run cs s).decoder.pending = [] ∧
    (run cs s).global_chunk_id = s.global_chunk_id ∧
    assignedIds (run cs s).log = assignedIds s.log := by
  induction cs generalizing s with
  | nil => exact ⟨h, rfl, rfl⟩
  | cons c cs ih =>
    obtain ⟨h1, h2, h3⟩ := pending_nil_step c s h
    obtain ⟨g1, g2, g3⟩ := ih (step c s) h1
    exact ⟨g1, g2.trans h2, g3.trans h3⟩

/-- Once the decode source is exhausted, any decode-result event one more
step can add reports a non-positive result: a later decode call only ever
sees "no more chunks". -/
theorem pending_nil_decodeRet_step (c : Choice) (s : State)
    (h : s.decoder.pending = []) (w2 : Nat) (r2 : Int)
    (hmem : Event.decodeRet w2 r2 ∈ (step c s).log) :
    Event.decodeRet w2 r2 ∈ s.log ∨ r2 ≤ 0 := by
  cases c with
  | decodeTurn w =>
    cases hw : s.workers[w]? with
    | none =>
      simp only [step, hw] at hmem
      exact Or.inl hmem
    | some ph =>
      cases ph with
      | toDecode =>
        have hrd : run_decoder s.decoder = (-(s.decoder.final : Int), s.decoder) := by
          simp [run_decoder, h]
        have hneg : (-(s.decoder.final : Int)) ≤ 0 := by omega
        simp only [step, hw, hrd, if_pos hneg] at hmem
        rcases List.mem_append.mp hmem with hm | hm
        · exact Or.inl hm
        · simp only [List.mem_cons, List.mem_singleton] at hm
          rcases hm with h1 | h1 | h1 | h1 | h1 | h1
          · simp at h1
          · have hr : r2 = -(s.decoder.final : Int) := (Event.decodeRet.inj h1).2
            exact Or.inr (by omega)
          · simp at h1
          · simp at h1
          · simp at h1
          · simp at h1
      | toEncode i t k =>
        simp only [step, hw] at hmem
        exact Or.inl hmem
      | finished r =>
        simp only [step, hw] at hmem
        exact Or.inl hmem
  | encodeFrame w =>
    cases hw : s.workers[w]? with
    | none =>
      simp only [step, hw] at hmem
      exact Or.inl hmem
    | some ph =>
      cases ph with
      | toDecode =>
        simp only [step, hw] at hmem
        exact Or.inl hmem
      | finished r =>
        simp only [step, hw] at hmem
        exact Or.inl hmem
      | toEncode i t k =>
        cases k with
        | zero =>
          simp only [step, hw] at hmem
          exact Or.inl hmem
        | succ m =>
          simp only [step, hw] at hmem
          rcases List.mem_append.mp hmem with hm | hm
          · exact Or.inl hm
          · simp at hm
  | finishChunk w =>
    cases hw : s.workers[w]? with
    | none =>
      simp only [step, hw] at hmem
      exact Or.inl hmem
    | some ph =>
      cases ph with
      | toDecode =>
        simp only [step, hw] at hmem
        exact Or.inl hmem
      | finished r =>
        simp only [step, hw] at hmem
        exact Or.inl hmem
      | toEncode i t k =>
        cases k with
        | succ m =>
          simp only [step, hw] at hmem
          exact Or.inl hmem
        | zero =>
          simp only [step, hw] at hmem
          exact Or.inl hmem
  | encodeFail w ret =>
    cases hw : s.workers[w]? with
    | none =>
      simp only [step, hw] at hmem
      exact Or.inl hmem
    | some ph =>
      cases ph with
      | toDecode =>
        simp only [step, hw] at hmem
        exact Or.inl hmem
      | finished r =>
        simp only [step, hw] at hmem
        exact Or.inl hmem
      | toEncode i t k =>
        by_cases hcond : k = t ∧ ret ≠ 0
        · simp only [step, hw, if_pos hcond] at hmem
          rcases List.mem_append.mp hmem with hm | hm
          · exact Or.inl hm
          · simp at hm
        · simp only [step, hw, if_neg hcond] at hmem
          exact Or.inl hmem
  | monitorWake =>
    by_cases hm : s.monitor_done
    · simp only [step, if_pos hm] at hmem
      exact Or.inl hmem
    · simp only [step, if_neg hm] at hmem
      exact Or.inl hmem

/-- Once the decode source is exhausted, every decode-result event any
schedule continuation adds reports a non-positive result. -/
theorem pending_nil_decodeRet_run (cs : List Choice) (s : State)
    (h : s.decoder.pending = []) (w2 : Nat) (r2 : Int)
    (hmem : Event.decodeRet w2 r2 ∈ (run cs s).log) :
    Event.decodeRet w2 r2 ∈ s.log ∨ r2 ≤ 0 := by
  induction cs generalizing s with
  | nil => exact Or.inl hmem
  | cons c cs ih =>
    have h1 := (pending_nil_step c s h).1
    rcases ih (step c s) h1 hmem with hm | hr
    · exact pending_nil_decodeRet_step c s h w2 r2 hm
    · exact Or.inr hr

/-- A worker mid-encode always makes progress when scheduled: it writes one
frame, bumps the shared counter once, and logs exactly that write. -/
theorem encodeFrame_progress (s : State) (w idx total k : Nat)
    (hw : s.workers[w]? = some (Phase.toEncode idx total (k + 1))) :
    (step (Choice.encodeFrame w) s).workers[w]? = some (Phase.toEncode idx total k) ∧
    (step (Choice.encodeFrame w) s).num_frames_completed = s.num_frames_completed + 1 ∧
    (step (Choice.encodeFrame w) s).log = s.log ++ [Event.frameWritten w] := by
  have hlt : w < s.workers.length := lt_length_of_getElem? hw
  simp only [step, hw]
  refine ⟨?_, by simp, by simp⟩
  rw [List.getElem?_set]
  simp [hlt]

/-- A worker with a dispatched encode of `k` remaining frames runs it to
completion whenever the scheduler lets it: after its `k` per-frame steps and
the chunk finish it is back at its loop head, having added exactly `k` to the
shared completed-frame counter. -/
theorem encode_run_to_completion (s : State) (w idx total k : Nat)
    (hw : s.workers[w]? = some (Phase.toEncode idx total k)) :
    (run (List.replicate k (Choice.encodeFrame w) ++ [Choice.finishChunk w]) s).workers[w]?
        = some Phase.toDecode ∧
    (run (List.replicate k (Choice.encodeFrame w) ++ [Choice.finishChunk w]) s).num_frames_completed
        = s.num_frames_completed + k := by
  induction k generalizing s with
  | zero =>
    have hlt : w < s.workers.length := lt_length_of_getElem? hw
    simp only [List.replicate, List.nil_append, run, List.foldl_cons, List.foldl_nil]
    simp only [step, hw]
    constructor
    · rw [List.getElem?_set]
      simp [hlt]
    · rfl
  | succ m ih =>
    rw [List.replicate_succ, List.cons_append, run_cons]
    obtain ⟨h1, h2, -⟩ := encodeFrame_progress s w idx total m hw
    obtain ⟨g1, g2⟩ := ih (step (Choice.encodeFrame w) s) h1
    refine ⟨g1, ?_⟩
    rw [g2, h2]
    omega

/-- No step ever decreases the completed-frame counter. -/
theorem frames_mono_step (c : Choice) (s : State) :
    s.num_frames_completed ≤ (step c s).num_frames_completed := by
  cases c with
  | decodeTurn w =>
    cases hw : s.workers[w]? with
    | none => simp [step, hw]
    | some ph =>
      cases ph with
      | toDecode =>
        rcases hrd : run_decoder s.decoder with ⟨r, dn⟩
        by_cases hr : r ≤ 0 <;> simp [step, hw, hrd, hr]
      | toEncode i t k => simp [step, hw]
      | finished r => simp [step, hw]
  | encodeFrame w =>
    cases hw : s.workers[w]? with
    | none => simp [step, hw]
    | some ph =>
      cases ph with
      | toDecode => simp [step, hw]
      | finished r => simp [step, hw]
      | toEncode i t k =>
        cases k with
        | zero => simp [step, hw]
        | succ m => simp [step, hw]
  | finishChunk w =>
    cases hw : s.workers[w]? with
    | none => simp [step, hw]
    | some ph =>
      cases ph with
      | toDecode => simp [step, hw]
      | finished r => simp [step, hw]
      | toEncode i t k =>
        cases k with
        | succ m => simp [step, hw]
        | zero => simp [step, hw]
  | encodeFail w ret =>
    cases hw : s.workers[w]? with
    | none => simp [step, hw]
    | some ph =>
      cases ph with
      | toDecode => simp [step, hw]
      | finished r => simp [step, hw]
      | toEncode i t k =>
        by_cases hcond : k = t ∧ ret ≠ 0
        · simp [step, hw, if_pos hcond]
        · simp [step, hw, if_neg hcond]
  | monitorWake =>
    by_cases hm : s.monitor_done <;> simp [step, hm]

/-- The monitor's wake step reads shared state but writes none of it: the
counter, the log, the decode source, the chunk-id counter, the flags and the
workers are all untouched. -/
theorem monitorWake_reads_only (s : State) :
    (step Choice.monitorWake s).num_frames_completed = s.num_frames_completed ∧
    (step Choice.monitorWake s).log = s.log ∧
    (step Choice.monitorWake s).decoder = s.decoder ∧
    (step Choice.monitorWake s).global_chunk_id = s.global_chunk_id ∧
    (step Choice.monitorWake s).worker_threads_finished = s.worker_threads_finished ∧
    (step Choice.monitorWake s).workers = s.workers := by
  by_cases hm : s.monitor_done <;> simp [step, hm]

/-- A set finished-flag survives every step: flags are never cleared. -/
theorem flags_monotone_step (c : Choice) (s : State) (w : Nat)
    (h : s.worker_threads_finished[w]? = some true) :
    (step c s).worker_threads_finished[w]? = some true := by
  cases c with
  | decodeTurn w2 =>
    cases hw : s.workers[w2]? with
    | none => simp [step, hw, h]
    | some ph =>
      cases ph with
      | toDecode =>
        rcases hrd : run_decoder s.decoder with ⟨r, dn⟩
        by_cases hr : r ≤ 0
        · simp only [step, hw, hrd, if_pos hr]
          exact getElem?_set_true _ _ _ h
        · simp [step, hw, hrd, hr, h]
      | toEncode i t k => simp [step, hw, h]
      | finished r => simp [step, hw, h]
  | encodeFrame w2 =>
    cases hw : s.workers[w2]? with
    | none => simp [step, hw, h]
    | some ph =>
      cases ph with
      | toDecode => simp [step, hw, h]
      | finished r => simp [step, hw, h]
      | toEncode i t k =>
        cases k with
        | zero => simp [step, hw, h]
        | succ m => simp [step, hw, h]
  | finishChunk w2 =>
    cases hw : s.workers[w2]? with
    | none => simp [step, hw, h]
    | some ph =>
      cases ph with
      | toDecode => simp [step, hw, h]
      | finished r => simp [step, hw, h]
      | toEncode i t k =>
        cases k with
        | succ m => simp [step, hw, h]
        | zero => simp [step, hw, h]
  | encodeFail w2 ret =>
    cases hw : s.workers[w2]? with
    | none => simp [step, hw, h]
    | some ph =>
      cases ph with
      | toDecode => simp [step, hw, h]
      | finished r => simp [step, hw, h]
      | toEncode i t k =>
        by_cases hcond : k = t ∧ ret ≠ 0
        · simp only [step, hw, if_pos hcond]
          exact getElem?_set_true _ _ _ h
        · simp [step, hw, if_neg hcond, h]
  | monitorWake =>
    by_cases hm : s.monitor_done <;> simp [step, hm, h]

/-- After the progress loop observes every finished-flag set, no worker step
changes the state at all: the threads are joinable and touch no shared state. -/
theorem all_flags_no_worker_step (s : State) (hInv : Inv s)
    (hall : s.worker_threads_finished.all (fun b => b) = true)
    (c : Choice) (hc : c ≠ Choice.monitorWake) : step c s = s := by
  have hfin : ∀ (w : Nat) (ph : Phase), s.workers[w]? = some ph →
      ph.isFinished = true := by
    intro w ph hw
    have hflag := hInv.flags_phase w
    rw [hw] at hflag
    have hmem : ph.isFinished ∈ s.worker_threads_finished := by
      exact List.getElem?_mem hflag
    exact List.all_eq_true.mp hall _ hmem
  cases c with
  | decodeTurn w =>
    cases hw : s.workers[w]? with
    | none => simp [step, hw]
    | some ph =>
      have hph := hfin w ph hw
      cases ph with
      | toDecode => simp [Phase.isFinished] at hph
      | toEncode i t k => simp [Phase.isFinished] at hph
      | finished r => simp [step, hw]
  | encodeFrame w =>
    cases hw : s.workers[w]? with
    | none => simp [step, hw]
    | some ph =>
      have hph := hfin w ph hw
      cases ph with
      | toDecode => simp [Phase.isFinished] at hph
      | toEncode i t k => simp [Phase.isFinished] at hph
      | finished r => simp [step, hw]
  | finishChunk w =>
    cases hw : s.workers[w]? with
    | none => simp [step, hw]
    | some ph =>
      have hph := hfin w ph hw
      cases ph with
      | toDecode => simp [Phase.isFinished] at hph
      | toEncode i t k => simp [Phase.isFinished] at hph
      | finished r => simp [step, hw]
  | encodeFail w ret =>
    cases hw : s.workers[w]? with
    | none => simp [step, hw]
    | some ph =>
      have hph := hfin w ph hw
      cases ph with
      | toDecode => simp [Phase.isFinished] at hph
      | toEncode i t k => simp [Phase.isFinished] at hph
      | finished r => simp [step, hw]
  | monitorWake => exact absurd rfl hc

/-- Helper for the concatenation loop: folding the body of `raw_concat_files`
over any index list appends the mapped-and-flattened contents to the output
and the indices to the opened-inputs list. -/
theorem raw_concat_foldl (content : Nat → List Nat) (l : List Nat) (r : ConcatResult) :
    l.foldl (fun r i => { r with output := r.output ++ content i,
                                 opened_inputs := r.opened_inputs ++ [i] }) r
      = { output_created := r.output_created,
          output := r.output ++ (l.map content).flatten,
          opened_inputs := r.opened_inputs ++ l } := by
  induction l generalizing r with
  | nil =>
    rcases r with ⟨cr, out, op⟩
    simp
  | cons a l ih =>
    rcases r with ⟨cr, out, op⟩
    simp [List.foldl_cons, ih]

/-! ## The claims -/

/-- C1: over any full pipeline run from the initial state, under every
scheduling of the worker threads, the chunk ids assigned to workers are
exactly `0, 1, ..., global_chunk_id - 1`, a contiguous range with no gaps and
no duplicates, listed in the exact order the decode turns completed; hence
iterating ids `0..next_id` visits every produced chunk in original stream
order. -/
theorem c1_chunk_ids_contiguous (W : Nat) (d : DecodeContext) (cs : List Choice) :
    assignedIds (run cs (init_state W d)).log
      = List.range (run cs (init_state W d)).global_chunk_id :=
  (inv_run cs (init_state W d) (inv_init W d)).assigned_range

/-- C2: once any worker has observed a non-positive result from the shared
decode call (mid-stream failure or exhaustion), no continuation of the
schedule assigns a chunk id to any worker — `global_chunk_id` and the
assign-event history stay frozen; moreover every decode call made after that
point again reports a non-positive result, so no worker can ever be handed a
new chunk; meanwhile a worker whose encode was already dispatched is allowed
to run it to completion — its `k` remaining per-frame steps and the chunk
finish return it to its loop head, adding exactly `k` to the shared
counter. -/
theorem c2_decode_error_stops_assignment :
    (∀ (W : Nat) (d : DecodeContext) (cs1 cs2 : List Choice) (w : Nat) (r : Int),
      Event.decodeRet w r ∈ (run cs1 (init_state W d)).log → r ≤ 0 →
      (run cs2 (run cs1 (init_state W d))).global_chunk_id
          = (run cs1 (init_state W d)).global_chunk_id ∧
      assignedIds (run cs2 (run cs1 (init_state W d))).log
          = assignedIds (run cs1 (init_state W d)).log) ∧
    (∀ (W : Nat) (d : DecodeContext) (cs1 cs2 : List Choice) (w : Nat) (r : Int)
        (w2 : Nat) (r2 : Int),
      Event.decodeRet w r ∈ (run cs1 (init_state W d)).log → r ≤ 0 →
      Event.decodeRet w2 r2 ∈ (run cs2 (run cs1 (init_state W d))).log →
      Event.decodeRet w2 r2 ∈ (run cs1 (init_state W d)).log ∨ r2 ≤ 0) ∧
    (∀ (s : State) (w idx total k : Nat),
      s.workers[w]? = some (Phase.toEncode idx total k) →
      (run (List.replicate k (Choice.encodeFrame w) ++ [Choice.finishChunk w]) s).workers[w]?
          = some Phase.toDecode ∧
      (run (List.replicate k (Choice.encodeFrame w) ++ [Choice.finishChunk w]) s).num_frames_completed
          = s.num_frames_completed + k) := by
  refine ⟨?_, ?_, ?_⟩
  · intro W d cs1 cs2 w r hmem hr
    have hinv := inv_run cs1 (init_state W d) (inv_init W d)
    have hnil : (run cs1 (init_state W d)).decoder.pending = [] :=
      hinv.exhausted_sticky w r hmem hr
    obtain ⟨-, h2, h3⟩ := pending_nil_run cs2 _ hnil
    exact ⟨h2, h3⟩
  · intro W d cs1 cs2 w r w2 r2 hmem hr hmem2
    have hinv := inv_run cs1 (init_state W d) (inv_init W d)
    have hnil : (run cs1 (init_state W d)).decoder.pending = [] :=
      hinv.exhausted_sticky w r hmem hr
    exact pending_nil_decodeRet_run cs2 _ hnil w2 r2 hmem2
  · intro s w idx total k hw
    exact encode_run_to_completion s w idx total k hw

/-- Witness for C2.  First scenario: two workers, a stream of one 2-frame
chunk followed by a decode error `-5`; worker 0 claims chunk 0, worker 1 then
observes `-5`; afterwards another decode turn assigns nothing, and worker 0's
already-dispatched 2-frame encode runs to completion.  Second scenario: an
immediately failing stream; after worker 0 reports `-5`, worker 1's own
decode call again reports a non-positive result. -/
theorem c2_witness :
    ((run [Choice.decodeTurn 1]
        (run [Choice.decodeTurn 0, Choice.decodeTurn 1] (init_state 2 ⟨[1], 5⟩))).global_chunk_id
      = (run [Choice.decodeTurn 0, Choice.decodeTurn 1] (init_state 2 ⟨[1], 5⟩)).global_chunk_id ∧
     assignedIds (run [Choice.decodeTurn 1]
        (run [Choice.decodeTurn 0, Choice.decodeTurn 1] (init_state 2 ⟨[1], 5⟩))).log
      = assignedIds (run [Choice.decodeTurn 0, Choice.decodeTurn 1] (init_state 2 ⟨[1], 5⟩)).log) ∧
    (Event.decodeRet 1 (-5) ∈ (run [Choice.decodeTurn 0] (init_state 2 ⟨[], 5⟩)).log ∨
      (-5 : Int) ≤ 0) ∧
    ((run (List.replicate 2 (Choice.encodeFrame 0) ++ [Choice.finishChunk 0])
        (run [Choice.decodeTurn 0, Choice.decodeTurn 1] (init_state 2 ⟨[1], 5⟩))).workers[0]?
      = some Phase.toDecode ∧
     (run (List.replicate 2 (Choice.encodeFrame 0) ++ [Choice.finishChunk 0])
        (run [Choice.decodeTurn 0, Choice.decodeTurn 1] (init_state 2 ⟨[1], 5⟩))).num_frames_completed
      = (run [Choice.decodeTurn 0, Choice.decodeTurn 1] (init_state 2 ⟨[1], 5⟩)).num_frames_completed + 2) :=
  ⟨c2_decode_error_stops_assignment.1 2 ⟨[1], 5⟩
      [Choice.decodeTurn 0, Choice.decodeTurn 1] [Choice.decodeTurn 1] 1 (-5)
      (by decide) (by decide),
   c2_decode_error_stops_assignment.2.1 2 ⟨[], 5⟩
      [Choice.decodeTurn 0] [Choice.decodeTurn 1] 0 (-5) 1 (-5)
      (by decide) (by decide) (by decide),
   c2_decode_error_stops_assignment.2.2
      (run [Choice.decodeTurn 0, Choice.decodeTurn 1] (init_state 2 ⟨[1], 5⟩))
      0 0 2 2 (by decide)⟩

/-- C3: in any reachable state, a worker whose decode call returns `r ≤ 0`
stores `true` into its own finished-flag, and its critical section logs — in
source order — the lock, the decode result, the flag store, the monitor
signal, the lock release, and the loop exit returning exactly `r`; it claims
no chunk id (`global_chunk_id` and the assign history are unchanged). -/
theorem c3_worker_exit_on_nonpositive (W : Nat) (d : DecodeContext)
    (cs : List Choice) (w : Nat) (r : Int) (dn : DecodeContext)
    (hw : (run cs (init_state W d)).workers[w]? = some Phase.toDecode)
    (hrd : run_decoder (run cs (init_state W d)).decoder = (r, dn))
    (hr : r ≤ 0) :
    (step (Choice.decodeTurn w) (run cs (init_state W d))).worker_threads_finished[w]?
        = some true ∧
    (step (Choice.decodeTurn w) (run cs (init_state W d))).workers[w]?
        = some (Phase.finished r) ∧
    (step (Choice.decodeTurn w) (run cs (init_state W d))).log
        = (run cs (init_state W d)).log ++
          [Event.lockAcq w, Event.decodeRet w r, Event.flagSet w, Event.notify w,
           Event.unlock w, Event.exitLoop w r] ∧
    (step (Choice.decodeTurn w) (run cs (init_state W d))).global_chunk_id
        = (run cs (init_state W d)).global_chunk_id ∧
    assignedIds (step (Choice.decodeTurn w) (run cs (init_state W d))).log
        = assignedIds (run cs (init_state W d)).log := by
  have hinv := inv_run cs (init_state W d) (inv_init W d)
  have hltw : w < (run cs (init_state W d)).workers.length := lt_length_of_getElem? hw
  have hltf : w < (run cs (init_state W d)).worker_threads_finished.length := by
    rw [hinv.len_eq]
    exact hltw
  simp only [step, hw, hrd, if_pos hr]
  refine ⟨?_, ?_, by simp, by simp, ?_⟩
  · rw [List.getElem?_set]
    simp [hltf]
  · rw [List.getElem?_set]
    simp [hltw]
  · rw [assignedIds_append, assignedIds_exit6, List.append_nil]

/-- Witness for C3: one worker, an immediately exhausted stream; its first
decode turn returns `0`, sets its flag, logs signal/unlock/exit in order, and
claims nothing. -/
theorem c3_witness :
    (step (Choice.decodeTurn 0) (run [] (init_state 1 ⟨[], 0⟩))).worker_threads_finished[0]?
        = some true ∧
    (step (Choice.decodeTurn 0) (run [] (init_state 1 ⟨[], 0⟩))).workers[0]?
        = some (Phase.finished 0) ∧
    (step (Choice.decodeTurn 0) (run [] (init_state 1 ⟨[], 0⟩))).log
        = (run [] (init_state 1 ⟨[], 0⟩)).log ++
          [Event.lockAcq 0, Event.decodeRet 0 0, Event.flagSet 0, Event.notify 0,
           Event.unlock 0, Event.exitLoop 0 0] ∧
    (step (Choice.decodeTurn 0) (run [] (init_state 1 ⟨[], 0⟩))).global_chunk_id
        = (run [] (init_state 1 ⟨[], 0⟩)).global_chunk_id ∧
    assignedIds (step (Choice.decodeTurn 0) (run [] (init_state 1 ⟨[], 0⟩))).log
        = assignedIds (run [] (init_state 1 ⟨[], 0⟩)).log :=
  c3_worker_exit_on_nonpositive 1 ⟨[], 0⟩ [] 0 0 ⟨[], 0⟩ (by decide) (by decide) (by decide)

/-- C4: the shared completed-frame counter equals, in every reachable state,
the number of frame-write events so far (it is incremented exactly once per
frame, the increment coming with that frame's write); no step decreases it;
the monitor's wake step reads it but never writes it (nor the log); and a
worker's per-frame step increments it by exactly one, immediately after
logging that frame's write. -/
theorem c4_completed_frame_counter :
    (∀ (W : Nat) (d : DecodeContext) (cs : List Choice),
      (run cs (init_state W d)).num_frames_completed
        = ((run cs (init_state W d)).log.filter isFrameWritten).length) ∧
    (∀ (c : Choice) (s : State),
      s.num_frames_completed ≤ (step c s).num_frames_completed) ∧
    (∀ s : State,
      (step Choice.monitorWake s).num_frames_completed = s.num_frames_completed ∧
      (step Choice.monitorWake s).log = s.log) ∧
    (∀ (s : State) (w idx total k : Nat),
      s.workers[w]? = some (Phase.toEncode idx total (k + 1)) →
      (step (Choice.encodeFrame w) s).num_frames_completed
          = s.num_frames_completed + 1 ∧
      (step (Choice.encodeFrame w) s).log = s.log ++ [Event.frameWritten w]) := by
  refine ⟨?_, frames_mono_step, ?_, ?_⟩
  · intro W d cs
    exact (inv_run cs (init_state W d) (inv_init W d)).frames_events
  · intro s
    exact ⟨(monitorWake_reads_only s).1, (monitorWake_reads_only s).2.1⟩
  · intro s w idx total k hw
    obtain ⟨-, h2, h3⟩ := encodeFrame_progress s w idx total k hw
    exact ⟨h2, h3⟩

/-- Witness for C4: a worker that has just claimed a one-frame chunk
increments the counter by exactly one when it writes that frame, logging the
write. -/
theorem c4_witness :
    (step (Choice.encodeFrame 0) (run [Choice.decodeTurn 0] (init_state 1 ⟨[0], 0⟩))).num_frames_completed
      = (run [Choice.decodeTurn 0] (init_state 1 ⟨[0], 0⟩)).num_frames_completed + 1 ∧
    (step (Choice.encodeFrame 0) (run [Choice.decodeTurn 0] (init_state 1 ⟨[0], 0⟩))).log
      = (run [Choice.decodeTurn 0] (init_state 1 ⟨[0], 0⟩)).log ++ [Event.frameWritten 0] :=
  c4_completed_frame_counter.2.2.2
    (run [Choice.decodeTurn 0] (init_state 1 ⟨[0], 0⟩)) 0 0 1 0 (by decide)

/-- C5: the concatenator opens chunk inputs `0, 1, ..., num_files - 1` in
strictly increasing order, creates/truncates the single output, and the final
output is the byte-level concatenation of the per-chunk contents in id
order. -/
theorem c5_concatenation_in_id_order (num_files : Nat) (content : Nat → List Nat) :
    (raw_concat_files num_files content).opened_inputs = List.range num_files ∧
    List.Pairwise (· < ·) (raw_concat_files num_files content).opened_inputs ∧
    (raw_concat_files num_files content).output
      = ((List.range num_files).map content).flatten ∧
    (raw_concat_files num_files content).output_created = true := by
  have h := raw_concat_foldl content (List.range num_files)
      { output_created := true, output := [], opened_inputs := [] }
  refine ⟨?_, ?_, ?_, ?_⟩ <;>
    simp [raw_concat_files, h, List.pairwise_lt_range]

/-- C6: in every reachable state each finished-flag holds `true` exactly when
its worker's loop has exited, and the flag-store event for worker `w` has
happened exactly once if `w` exited and never otherwise; a set flag survives
every step (never cleared); only a worker's own steps ever store its flag;
the monitor loop's wake terminates it exactly when every flag reads `true`;
and once all flags are set no worker step changes the state at all — the
threads are joinable with no further shared-state access. -/
theorem c6_finished_flags :
    (∀ (W : Nat) (d : DecodeContext) (cs : List Choice) (w : Nat),
      (run cs (init_state W d)).worker_threads_finished[w]?
        = ((run cs (init_state W d)).workers[w]?).map Phase.isFinished) ∧
    (∀ (W : Nat) (d : DecodeContext) (cs : List Choice) (w : Nat),
      flagSetCount w (run cs (init_state W d)).log
        = (if ((run cs (init_state W d)).workers[w]?).map Phase.isFinished = some true
           then 1 else 0)) ∧
    (∀ (c : Choice) (s : State) (w : Nat),
      s.worker_threads_finished[w]? = some true →
      (step c s).worker_threads_finished[w]? = some true) ∧
    (∀ s : State, s.monitor_done = false →
      ((step Choice.monitorWake s).monitor_done = true ↔
        s.worker_threads_finished.all (fun b => b) = true)) ∧
    (∀ (W : Nat) (d : DecodeContext) (cs : List Choice),
      (run cs (init_state W d)).worker_threads_finished.all (fun b => b) = true →
      ∀ c : Choice, c ≠ Choice.monitorWake →
        step c (run cs (init_state W d)) = run cs (init_state W d)) := by
  refine ⟨?_, ?_, flags_monotone_step, ?_, ?_⟩
  · intro W d cs
    exact (inv_run cs (init_state W d) (inv_init W d)).flags_phase
  · intro W d cs
    exact (inv_run cs (init_state W d) (inv_init W d)).flag_once
  · intro s hm
    simp [step, hm]
  · intro W d cs hall c hc
    exact all_flags_no_worker_step (run cs (init_state W d))
      (inv_run cs (init_state W d) (inv_init W d)) hall c hc

/-- Witness for C6: with one worker and an exhausted stream, after the
worker's exit its flag reads `true` and survives another step; the monitor's
first wake does not terminate the loop while the flag is still `false`
initially, and after all flags are set a worker step is the identity. -/
theorem c6_witness :
    ((step (Choice.decodeTurn 0) (run [Choice.decodeTurn 0] (init_state 1 ⟨[], 0⟩))).worker_threads_finished[0]?
        = some true) ∧
    (((step Choice.monitorWake (init_state 1 ⟨[], 0⟩)).monitor_done = true) ↔
      ((init_state 1 ⟨[], 0⟩).worker_threads_finished.all (fun b => b) = true)) ∧
    (step (Choice.decodeTurn 0) (run [Choice.decodeTurn 0] (init_state 1 ⟨[], 0⟩))
        = run [Choice.decodeTurn 0] (init_state 1 ⟨[], 0⟩)) :=
  ⟨c6_finished_flags.2.2.1 (Choice.decodeTurn 0)
      (run [Choice.decodeTurn 0] (init_state 1 ⟨[], 0⟩)) 0 (by decide),
   c6_finished_flags.2.2.2.1 (init_state 1 ⟨[], 0⟩) (by decide),
   c6_finished_flags.2.2.2.2 1 ⟨[], 0⟩ [Choice.decodeTurn 0] (by decide)
      (Choice.decodeTurn 0) (by decide)⟩

/-- C7 counterexample: at a wake where the one-second wait timed out
(`no_timeout = false`), with a counter delta of 10 frames and a measured
elapsed time of 2000 ms since the wait began, the code reports 10 fps — the
raw delta, i.e. the nominal one-second interval — whereas the delta over the
measured elapsed time is 5 fps.  So the instantaneous throughput is not
computed from the measured elapsed time on every wake. -/
theorem c7_counterexample :
    (monitor_iteration false 0 10 0 0 2000).local_fps
      ≠ fps_to_int (compute_fps 10 2000) := by
  have h1 : (monitor_iteration false 0 10 0 0 2000).local_fps = 10 := rfl
  have h2 : compute_fps 10 2000 = FpsVal.val 5 := by
    rw [compute_fps]
    norm_num
  have h3 : fps_to_int (compute_fps 10 2000) = 5 := by
    rw [h2]
    simp [fps_to_int]
  rw [h1, h3]
  decide

/-- C7 (amended): the monitor computes the instantaneous fps from the counter
delta over the measured elapsed time only when it was woken early by a
worker's signal (`no_timeout`); on a timed-out wait it reports the raw
counter delta, assuming the nominal one-second interval.  The cumulative
average is always computed over the measured elapsed time since pipeline
start. -/
theorem c7_monitor_throughput (no_timeout : Bool) (last_frames n_frames : Nat)
    (start_ms local_start_ms local_now_ms : Int) :
    (no_timeout = true →
      (monitor_iteration no_timeout last_frames n_frames start_ms local_start_ms
          local_now_ms).local_fps
        = fps_to_int (compute_fps (n_frames - last_frames)
            (local_now_ms - local_start_ms))) ∧
    (no_timeout = false →
      (monitor_iteration no_timeout last_frames n_frames start_ms local_start_ms
          local_now_ms).local_fps = ((n_frames - last_frames : Nat) : Int)) ∧
    (monitor_iteration no_timeout last_frames n_frames start_ms local_start_ms
        local_now_ms).avg_fps = compute_fps n_frames (local_now_ms - start_ms) := by
  refine ⟨?_, ?_, rfl⟩ <;> intro h <;> simp [monitor_iteration, h]

/-- Witness for C7 (amended): an early wake measures 2000 ms and reports the
measured-time fps; a timed-out wake reports the raw delta. -/
theorem c7_witness :
    ((monitor_iteration true 0 10 0 0 2000).local_fps
        = fps_to_int (compute_fps (10 - 0) (2000 - 0))) ∧
    ((monitor_iteration false 0 10 0 0 2000).local_fps = (((10 - 0 : Nat)) : Int)) :=
  ⟨(c7_monitor_throughput true 0 10 0 0 2000).1 rfl,
   (c7_monitor_throughput false 0 10 0 0 2000).2.1 rfl⟩

/-- C8: with the `SIGSEGV` handler installed — which the pipeline entry point
`main_unused` does as its first action — a memory-access fault makes the
process emit exactly one diagnostic line to the error stream and terminate
with a non-zero exit status. -/
theorem c8_segv_diagnostic :
    (on_segfault (main_unused_installs_handler true)).stderr_writes = [segv_message] ∧
    (on_segfault (main_unused_installs_handler true)).stderr_writes.length = 1 ∧
    (on_segfault (main_unused_installs_handler true)).exit_status ≠ 0 :=
  ⟨rfl, rfl, by decide⟩

/-- C9 counterexample: the product `1000 * n_frames` is an `int * uint32_t`
multiplication (src/main.cpp:318,322), performed in unsigned 32-bit
arithmetic, so it wraps modulo `2^32`.  At `n_frames = 4294968` (a
representable `uint32_t` value) and `time_ms = 1000`,
`1000 * 4294968 = 4294968000 ≡ 704 (mod 2^32)`, so the helper returns
`704 / 1000`, not `1000·n / t = 4294968`.  Hence compute_fps does not return
`1000·n / t` for every frame count. -/
theorem c9_counterexample :
    compute_fps 4294968 1000
      ≠ FpsVal.val ((1000 * ((4294968 : Nat) : ℚ)) / (((1000 : Int)) : ℚ)) := by
  have h1 : compute_fps 4294968 1000 = FpsVal.val ((704 : ℚ) / 1000) := by
    rw [compute_fps]
    norm_num
  rw [h1]
  simp only [ne_eq, FpsVal.val.injEq]
  norm_num

/-- C9 (amended): `compute_fps` is total — for any frame count and elapsed
time it returns `INFINITY` when the time is ≤ 0 and otherwise
`((1000·n) mod 2^32) / t`, the `int * uint32_t` product wrapping modulo
`2^32` before the division; in the dividing branch the divisor is positive
(in particular nonzero), so no division by zero occurs on any monitor
wake. -/
theorem c9_compute_fps_total (n_frames : Nat) (time_ms : Int) :
    (time_ms ≤ 0 → compute_fps n_frames time_ms = FpsVal.inf) ∧
    (0 < time_ms →
      compute_fps n_frames time_ms
        = FpsVal.val ((((1000 * n_frames) % 2 ^ 32 : Nat) : ℚ) / (time_ms : ℚ)) ∧
      (time_ms : ℚ) ≠ 0) := by
  constructor
  · intro h
    simp [compute_fps, h]
  · intro h
    have h2 : ¬ time_ms ≤ 0 := by omega
    refine ⟨by simp [compute_fps, h2], ?_⟩
    exact Int.cast_ne_zero.mpr (by omega)

/-- Witness for C9 (amended): a non-positive elapsed time yields `INFINITY`;
a positive one yields the exact wrapped quotient with a nonzero divisor. -/
theorem c9_witness :
    (compute_fps 7 (-3) = FpsVal.inf) ∧
    (compute_fps 3 4
        = FpsVal.val ((((1000 * 3) % 2 ^ 32 : Nat) : ℚ) / (((4 : Int)) : ℚ)) ∧
      (((4 : Int)) : ℚ) ≠ 0) :=
  ⟨(c9_compute_fps_total 7 (-3)).1 (by decide),
   (c9_compute_fps_total 3 4).2 (by decide)⟩

/-- C10: invoked with a chunk count of zero, the concatenator still creates
and truncates the single output file, writes zero bytes to it, and opens no
chunk input files. -/
theorem c10_concat_zero_chunks (content : Nat → List Nat) :
    raw_concat_files 0 content
      = { output_created := true, output := [], opened_inputs := [] } := rfl

end SceneDetect
